import Mathlib

/-!
Verification of the HackDuel pairwise-judging application against its
natural-language specification.

The repository's visible sources are the React frontend
(`frontend/src/pages/JudgingPage.tsx`, `frontend/src/pages/LeaderboardPage.tsx`,
`frontend/src/lib/api.ts`) and provisioning scripts; the rating-and-matchmaking
backend described by the specification is not among the visible files, so its
operations are modelled from the specification's words where a claim needs them.
Numeric code is embedded over `ℚ`: the specification fixes the algorithm's shape
and invariants, not bit-exact floating-point output.
-/

namespace Frontend

/-- The `Project` record of `frontend/src/lib/api.ts` (lines 5-17). -/
structure Project where
  id : String
  title : String
  category : String
  subtitle : Option String
  description : String
  team_name : Option String
  writeup_url : Option String
  video_url : Option String
  project_links : Option String
  mu : ℚ
  sigma : ℚ
deriving DecidableEq, Repr

/-- The `PairResponse` record of `frontend/src/lib/api.ts` (lines 19-22). -/
structure PairResponse where
  project_a : Project
  project_b : Project
deriving DecidableEq, Repr

/-- The body posted by `api.vote` in `frontend/src/lib/api.ts` (lines 30-33). -/
structure VoteRequest where
  winner_id : String
  loser_id : String
deriving DecidableEq, Repr

/-- `api.vote(winnerId, loserId)` posts exactly these two ids in these roles
(`frontend/src/lib/api.ts` line 31). -/
def voteRequest (winnerId loserId : String) : VoteRequest :=
  { winner_id := winnerId, loser_id := loserId }

/-- `WEIGHTS.impact` in `JudgingPage.tsx` (line 10). -/
def impactW : ℚ := 4/10

/-- `WEIGHTS.technical` in `JudgingPage.tsx` (line 11). -/
def technicalW : ℚ := 3/10

/-- `WEIGHTS.creativity` in `JudgingPage.tsx` (line 12). -/
def creativityW : ℚ := 2/10

/-- `WEIGHTS.presentationQuality` in `JudgingPage.tsx` (line 13). -/
def presentationW : ℚ := 1/10

/-- The four relative criterion scores, each a slider value in 0..100 with 50
neutral (`JudgingPage.tsx` lines 61-66). -/
structure Scores where
  impact : ℚ
  technical : ℚ
  creativity : ℚ
  presentationQuality : ℚ
deriving DecidableEq, Repr

/-- The weighted sum accumulated over `Object.keys(WEIGHTS)` in
`handleCreateVote` (`JudgingPage.tsx` lines 143-149). -/
def weightedSum (s : Scores) : ℚ :=
  s.impact * impactW + s.technical * technicalW + s.creativity * creativityW
    + s.presentationQuality * presentationW

/-- `totalWeight` accumulated alongside the weighted sum
(`JudgingPage.tsx` lines 144-149). -/
def totalWeight : ℚ := impactW + technicalW + creativityW + presentationW

/-- `finalScore = weightedSum / totalWeight` (`JudgingPage.tsx` line 151). -/
def finalScore (s : Scores) : ℚ := weightedSum s / totalWeight

/-- The vote that `handleCreateVote` builds once it submits: `rightWins`
holds when `finalScore >= 50`, and the vote is
`(rightWins ? b.id : a.id, rightWins ? a.id : b.id)`
(`JudgingPage.tsx` lines 153-160). -/
def submittedVote (p : PairResponse) (s : Scores) : VoteRequest :=
  if 50 ≤ finalScore s then voteRequest p.project_b.id p.project_a.id
  else voteRequest p.project_a.id p.project_b.id

/-- `handleCreateVote` (`JudgingPage.tsx` lines 138-168): it returns without
submitting exactly when no pair is displayed or a submission is in flight;
otherwise it posts `submittedVote`. -/
def handleCreateVote (pair : Option PairResponse) (submitting : Bool)
    (s : Scores) : Option VoteRequest :=
  match pair with
  | none => none
  | some p => if submitting then none else some (submittedVote p s)

/-- The three values `getWinnerSide` can return (`JudgingPage.tsx` lines 205-212). -/
inductive Side where
  | left : Side
  | right : Side
  | neutral : Side
deriving DecidableEq, Repr

/-- `getWinnerSide` (`JudgingPage.tsx` lines 205-212): neutral inside the dead
zone `|weightedSum - 50| < 1`, otherwise the side of the larger half. -/
def getWinnerSide (s : Scores) : Side :=
  if |weightedSum s - 50| < 1 then Side.neutral
  else if 50 < weightedSum s then Side.right
  else Side.left

/-- `INITIAL_SIGMA` in `LeaderboardPage.tsx` (line 16). -/
def INITIAL_SIGMA : ℚ := 8333/1000

/-- `avgSigma` in `LeaderboardPage.tsx` (lines 17-19): the reduce-accumulated
sigma sum divided by the length for a non-empty list, `INITIAL_SIGMA` for an
empty one. -/
def avgSigma (projects : List Project) : ℚ :=
  if 0 < projects.length then
    (projects.foldl (fun acc p => acc + p.sigma) 0) / (projects.length : ℚ)
  else INITIAL_SIGMA

/-- `rawConfidence` in `LeaderboardPage.tsx` (line 25):
`Math.max(0, (INITIAL_SIGMA - avgSigma) / (INITIAL_SIGMA - 1.0)) * 100`. -/
def rawConfidence (projects : List Project) : ℚ :=
  max 0 ((INITIAL_SIGMA - avgSigma projects) / (INITIAL_SIGMA - 1)) * 100

/-- `confidence` in `LeaderboardPage.tsx` (line 26): `Math.min(100, rawConfidence)`. -/
def confidence (projects : List Project) : ℚ :=
  min 100 (rawConfidence projects)

/-- The arithmetic mean of sigma over the entries in scope, as the
specification's confidence formula words it. -/
def meanSigmaSpec (projects : List Project) : ℚ :=
  ((projects.map Project.sigma).sum) / (projects.length : ℚ)

/-- The specification's formula, stated from its words:
confidence = clamp((sigma0 - avg sigma) / (sigma0 - sigmaFloor), 0, 1) * 100,
with sigma0 the initial sigma constant and sigmaFloor = 1 the converged floor. -/
def confidenceSpec (projects : List Project) : ℚ :=
  min 1 (max 0 ((INITIAL_SIGMA - meanSigmaSpec projects) / (INITIAL_SIGMA - 1))) * 100

end Frontend

namespace Frontend

theorem foldl_add_sigma (l : List Project) (init : ℚ) :
    l.foldl (fun acc p => acc + p.sigma) init = init + (l.map Project.sigma).sum := by
  induction l generalizing init with
  | nil => simp
  | cons p t ih => simp [ih, add_assoc]

theorem min_hundred_clamp (x : ℚ) :
    min 100 (max 0 x * 100) = min 1 (max 0 x) * 100 := by
  rcases le_total (max 0 x) 1 with h | h
  · rw [min_eq_right (by nlinarith), min_eq_right h]
  · rw [min_eq_left (by nlinarith), min_eq_left h]
    norm_num

/-- A concrete project used to instantiate hypotheses at explicit inputs. -/
def proj0 : Project :=
  { id := "p1", title := "Alpha", category := "Science", subtitle := none,
    description := "d", team_name := none, writeup_url := none,
    video_url := none, project_links := none, mu := 25, sigma := 8333/1000 }

/-- A concrete project with a smaller sigma than `proj0`. -/
def projLow : Project :=
  { id := "p2", title := "Beta", category := "Science", subtitle := none,
    description := "d", team_name := none, writeup_url := none,
    video_url := none, project_links := none, mu := 30, sigma := 5 }

/-- A concrete displayed pair with distinct ids. -/
def pairAB : PairResponse := { project_a := proj0, project_b := projLow }

/-- The all-neutral slider assignment: every criterion at 50. -/
def scores50 : Scores :=
  { impact := 50, technical := 50, creativity := 50, presentationQuality := 50 }

/-- C2: for every non-empty leaderboard scope, the computed confidence equals
the specification's formula clamp((sigma0 - avg sigma)/(sigma0 - sigmaFloor), 0, 1) * 100
with sigma0 the initial sigma constant 8.333, sigmaFloor the converged floor 1.0,
and avg sigma the arithmetic mean of sigma over the entries in scope. -/
theorem confidence_matches_spec_formula (ps : List Project) (h : ps ≠ []) :
    confidence ps = confidenceSpec ps := by
  have hlen : 0 < ps.length := List.length_pos.mpr h
  unfold confidence rawConfidence confidenceSpec avgSigma meanSigmaSpec
  rw [if_pos hlen, foldl_add_sigma, zero_add, min_hundred_clamp]

theorem confidence_matches_spec_formula_witness :
    confidence [proj0] = confidenceSpec [proj0] :=
  confidence_matches_spec_formula [proj0] (by simp)

/-- C3: for every leaderboard scope, including the empty one, the computed
confidence lies in the closed interval from 0 to 100, and on the empty scope it
equals 0. -/
theorem confidence_bounded_and_zero_on_empty :
    (∀ ps : List Project, 0 ≤ confidence ps ∧ confidence ps ≤ 100)
      ∧ confidence [] = 0 := by
  constructor
  · intro ps
    constructor
    · exact le_min (by norm_num)
        (mul_nonneg (le_max_left 0 _) (by norm_num))
    · exact min_le_left _ _
  · simp [confidence, rawConfidence, avgSigma, INITIAL_SIGMA]

/-- C9: the leaderboard confidence is monotonically non-increasing in the
average sigma of the listed entries: for two non-empty lists, a larger or equal
average sigma yields a smaller or equal confidence. -/
theorem confidence_antitone_in_avg_sigma (ps qs : List Project)
    (hp : ps ≠ []) (hq : qs ≠ []) (h : avgSigma qs ≤ avgSigma ps) :
    confidence ps ≤ confidence qs := by
  unfold confidence rawConfidence
  have hD : (0:ℚ) < INITIAL_SIGMA - 1 := by norm_num [INITIAL_SIGMA]
  refine min_le_min le_rfl ?_
  refine mul_le_mul_of_nonneg_right ?_ (by norm_num)
  refine max_le_max le_rfl ?_
  exact (div_le_div_right hD).mpr (sub_le_sub_left h _)

theorem confidence_antitone_in_avg_sigma_witness :
    confidence [proj0] ≤ confidence [projLow] :=
  confidence_antitone_in_avg_sigma [proj0] [projLow] (by simp) (by simp)
    (by norm_num [avgSigma, proj0, projLow])

/-- C1 counterexample: with every criterion slider at the neutral value 50 the
weighted combined score equals 50 (a draw, and `getWinnerSide` reports
neutral), yet confirming the comparison still submits a vote, designating the
right-hand entry as winner even though neither entry is strictly preferred. -/
theorem draw_still_submits_vote :
    finalScore scores50 = 50
      ∧ getWinnerSide scores50 = Side.neutral
      ∧ handleCreateVote (some pairAB) false scores50
          = some (voteRequest pairAB.project_b.id pairAB.project_a.id) := by
  refine ⟨?_, ?_, ?_⟩
  · norm_num [finalScore, weightedSum, totalWeight, scores50,
      impactW, technicalW, creativityW, presentationW]
  · norm_num [getWinnerSide, weightedSum, scores50,
      impactW, technicalW, creativityW, presentationW]
  · norm_num [handleCreateVote, submittedVote, finalScore, weightedSum,
      totalWeight, scores50, impactW, technicalW, creativityW, presentationW]

/-- C1 amended: confirming the comparison always submits a vote (the neutral
weighted score 50 does not suppress submission; the draw is resolved in favour
of the right-hand entry, whose id is sent as winner), and whenever the weighted
combined score differs from 50 the submitted winner is the entry strictly
preferred by the weighted criterion scores. -/
theorem vote_winner_follows_weighted_scores (p : PairResponse) (s : Scores) :
    handleCreateVote (some p) false s = some (submittedVote p s)
      ∧ (50 < finalScore s →
          submittedVote p s = voteRequest p.project_b.id p.project_a.id)
      ∧ (finalScore s < 50 →
          submittedVote p s = voteRequest p.project_a.id p.project_b.id)
      ∧ (finalScore s = 50 →
          submittedVote p s = voteRequest p.project_b.id p.project_a.id) := by
  refine ⟨rfl, ?_, ?_, ?_⟩
  · intro h
    rw [submittedVote, if_pos (le_of_lt h)]
  · intro h
    rw [submittedVote, if_neg (not_le.mpr h)]
  · intro h
    rw [submittedVote, if_pos (le_of_eq h.symm)]

/-- C8: every vote the judging page submits carries as winner and loser exactly
the ids of the two displayed entries, one in each role, and when the displayed
pair has distinct ids the submitted winner and loser ids differ. -/
theorem submitted_vote_ids_are_displayed_pair (p : PairResponse) (s : Scores) :
    (submittedVote p s = voteRequest p.project_b.id p.project_a.id
        ∨ submittedVote p s = voteRequest p.project_a.id p.project_b.id)
      ∧ (p.project_a.id ≠ p.project_b.id →
          (submittedVote p s).winner_id ≠ (submittedVote p s).loser_id) := by
  constructor
  · unfold submittedVote
    split
    · exact Or.inl rfl
    · exact Or.inr rfl
  · intro hne
    unfold submittedVote
    split
    · exact fun h => hne (by simpa [voteRequest] using h.symm)
    · exact fun h => hne (by simpa [voteRequest] using h)

end Frontend

namespace Engine

/-- Modelled from the spec: the initial mean constant `mu0 = 25` of the rating
engine, whose code is not among the repository's visible files (section 6). -/
def MU0 : ℚ := 25

/-- Modelled from the spec: the initial sigma constant `sigma0 = 25/3` of the
missing rating engine (section 6 gives `sigma0` as about 8.333). -/
def SIGMA0 : ℚ := 25/3

/-- Modelled from the spec: the match-variance scale `beta = sigma0 / 2` of the
missing rating engine (section 6). -/
def BETA : ℚ := SIGMA0 / 2

/-- Modelled from the spec: the configured sigma floor of the missing rating
engine, the minimum that avoids zero variance (sections 4.2 and 4.5). -/
def SIGMA_FLOOR : ℚ := 1

/-- Modelled from the spec: one entry's belief distribution, a mean and an
uncertainty (section 3's `mu` and `sigma`), for the missing rating engine. -/
structure Rating where
  mu : ℚ
  sigma : ℚ
deriving DecidableEq, Repr

/-- Modelled from the spec: the gain applied to the mean shift, a strictly
positive amount that grows with the surprise of the outcome (a more negative
normalized mean gap means a bigger upset) and shrinks toward zero for results
conforming to prior belief (section 4.2); the missing engine's exact Gaussian
gain is a tunable the spec leaves open. -/
def vGain (t : ℚ) : ℚ := if 0 ≤ t then 1 / (1 + t) else 1 - t

/-- Modelled from the spec: the uncertainty-reduction gain in (0, 1], largest
for evenly matched entries (section 4.2); the exact formula is a tunable the
spec leaves open. -/
def wGain (t : ℚ) : ℚ := 1 / (1 + t ^ 2)

/-- Modelled from the spec: the pure rating update of the missing engine
(section 4.2), first argument the winner. The mean shift scales with each
entry's current variance relative to the total variance
`c2 = 2 * beta^2 + sigmaW^2 + sigmaL^2` and with the surprise gain; both sigmas
shrink by the information gained and are floored at `SIGMA_FLOOR`. -/
def update (winner loser : Rating) : Rating × Rating :=
  let c2 := 2 * BETA ^ 2 + winner.sigma ^ 2 + loser.sigma ^ 2
  let t := (winner.mu - loser.mu) / c2
  let v := vGain t
  let w := wGain t
  let muW := winner.mu + (winner.sigma ^ 2 / c2) * v
  let muL := loser.mu - (loser.sigma ^ 2 / c2) * v
  let sigW := max SIGMA_FLOOR (winner.sigma * (1 - (winner.sigma ^ 2 / c2) * w / 2))
  let sigL := max SIGMA_FLOOR (loser.sigma * (1 - (loser.sigma ^ 2 / c2) * w / 2))
  ({ mu := muW, sigma := sigW }, { mu := muL, sigma := sigL })

/-- Modelled from the spec: the two lifecycle states of an entry (section 3). -/
inductive Status where
  | Active : Status
  | Archived : Status
deriving DecidableEq, Repr

/-- Modelled from the spec: the Entry Store's canonical record per entry
(section 3): stable id, category tag, belief distribution and lifecycle state. -/
structure Entry where
  id : String
  category : String
  mu : ℚ
  sigma : ℚ
  status : Status
deriving DecidableEq, Repr

/-- Modelled from the spec: whether an entry is in the active pool. -/
def Entry.isActive (e : Entry) : Bool := e.status = Status.Active

/-- Modelled from the spec: membership in a category scope — active, and of
the requested category when one is requested (sections 4.1 and 4.3). -/
def inScope (cat : Option String) (e : Entry) : Bool :=
  e.isActive && (match cat with
    | none => true
    | some c => e.category = c)

/-- Modelled from the spec: the Entry Store's state, the collection of entry
records (section 4.1). -/
abbrev Store := List Entry

/-- Modelled from the spec: `listActive(category?)` of the Entry Store
(section 4.1). -/
def listActive (s : Store) (cat : Option String) : List Entry :=
  s.filter (inScope cat)

/-- Modelled from the spec: the leaderboard order — `mu` descending, ties
broken by `id` for determinism (section 4.5). -/
def rankBefore (a b : Entry) : Prop :=
  b.mu < a.mu ∨ (a.mu = b.mu ∧ a.id ≤ b.id)

instance : DecidableRel rankBefore := fun a b => by
  unfold rankBefore
  infer_instance

instance : IsTotal Entry rankBefore where
  total a b := by
    rcases lt_trichotomy a.mu b.mu with h | h | h
    · exact Or.inr (Or.inl h)
    · rcases le_total a.id b.id with hid | hid
      · exact Or.inl (Or.inr ⟨h, hid⟩)
      · exact Or.inr (Or.inr ⟨h.symm, hid⟩)
    · exact Or.inl (Or.inl h)

instance : IsTrans Entry rankBefore where
  trans a b c hab hbc := by
    rcases hab with hab | ⟨hab, haid⟩
    · rcases hbc with hbc | ⟨hbc, _⟩
      · exact Or.inl (hbc.trans hab)
      · exact Or.inl (hbc ▸ hab)
    · rcases hbc with hbc | ⟨hbc, hbid⟩
      · exact Or.inl (hab ▸ hbc)
      · exact Or.inr ⟨hab.trans hbc, haid.trans hbid⟩

/-- Modelled from the spec: `snapshot(category?)` of the Leaderboard
Aggregator — the entries in scope sorted by `mu` descending, ties broken by
`id` (section 4.5). -/
def snapshot (s : Store) (cat : Option String) : List Entry :=
  List.insertionSort rankBefore (listActive s cat)

/-- Modelled from the spec: committing a rating to an entry record leaves its
id, category and lifecycle state untouched (section 4.1's `commit`). -/
def setRating (e : Entry) (r : Rating) : Entry :=
  { e with mu := r.mu, sigma := r.sigma }

/-- Modelled from the spec: the one-way transition to `Archived`
(section 4.6). -/
def setArchived (e : Entry) : Entry :=
  { e with status := Status.Archived }

/-- Modelled from the spec: `get(id)` of the Entry Store (section 4.1). -/
def findEntry (s : Store) (i : String) : Option Entry :=
  s.find? (fun e => e.id = i)

/-- Modelled from the spec: applying a reported outcome (section 6's
`POST vote`): rejected without effect when an id is unknown, when winner and
loser coincide, or when either entry is archived; otherwise both entries
commit the posterior ratings of `update`. -/
def applyVote (s : Store) (w l : String) : Store :=
  if w = l then s
  else
    match findEntry s w, findEntry s l with
    | some ew, some el =>
      if ew.status = Status.Archived ∨ el.status = Status.Archived then s
      else
        s.map (fun e =>
          if e.id = w then
            setRating e (update { mu := ew.mu, sigma := ew.sigma } { mu := el.mu, sigma := el.sigma }).1
          else if e.id = l then
            setRating e (update { mu := ew.mu, sigma := ew.sigma } { mu := el.mu, sigma := el.sigma }).2
          else e)
    | _, _ => s

/-- Modelled from the spec: the Archive Lifecycle Manager's transition
(section 4.6): the named entry becomes `Archived`, other entries are
untouched. -/
def archiveEntry (s : Store) (i : String) : Store :=
  s.map (fun e => if e.id = i then setArchived e else e)

/-- Modelled from the spec: the operations that mutate the Entry Store after
ingestion — a reported outcome or an archive request (section 3's lifecycle). -/
inductive Op where
  | vote : String → String → Op
  | archive : String → Op

/-- Modelled from the spec: one mutation of the Entry Store. -/
def applyOp (s : Store) : Op → Store
  | Op.vote w l => applyVote s w l
  | Op.archive i => archiveEntry s i

/-- Modelled from the spec: a sequence of mutations applied in order. -/
def applyOps (s : Store) (ops : List Op) : Store :=
  ops.foldl applyOp s

/-- Modelled from the spec: the Pair Selector's preference score — closer `mu`
preferred, weighted toward pairs where at least one entry has high sigma
(section 4.3); lower is better. -/
def pairScore (p : Entry × Entry) : ℚ :=
  |p.1.mu - p.2.mu| - max p.1.sigma p.2.sigma

/-- Modelled from the spec: all candidate pairs of distinct pool positions. -/
def allPairs : List Entry → List (Entry × Entry)
  | [] => []
  | x :: xs => xs.map (fun y => (x, y)) ++ allPairs xs

/-- Modelled from the spec: the candidate minimizing the preference score. -/
def pickBest : List (Entry × Entry) → Option (Entry × Entry)
  | [] => none
  | p :: ps =>
    match pickBest ps with
    | none => some p
    | some q => if pairScore p ≤ pairScore q then some p else some q

/-- Modelled from the spec: the Pair Selector's failure when no eligible pair
exists (sections 4.3 and 7). -/
inductive PairFailure where
  | EmptyPool : PairFailure
deriving DecidableEq, Repr

/-- Modelled from the spec: `nextPair(category?)` of the missing Pair Selector
(section 4.3): among the active entries in scope it proposes the
best-scoring candidate pair, and fails with `EmptyPool` when fewer than two
active entries exist in the requested scope. -/
def nextPair (s : Store) (cat : Option String) : Except PairFailure (String × String) :=
  match pickBest (allPairs (listActive s cat)) with
  | some p => Except.ok (p.1.id, p.2.id)
  | none => Except.error PairFailure.EmptyPool

theorem vGain_pos (t : ℚ) : 0 < vGain t := by
  unfold vGain
  split
  · next h => have : (0:ℚ) < 1 + t := by linarith
              positivity
  · next h => push_neg at h
              linarith

theorem wGain_nonneg (t : ℚ) : 0 ≤ wGain t := by
  unfold wGain
  positivity

theorem sigma_floor_pos : (0:ℚ) < SIGMA_FLOOR := by
  norm_num [SIGMA_FLOOR]

theorem beta_pos : (0:ℚ) < BETA := by
  norm_num [BETA, SIGMA0]

theorem c2_pos (a b : Rating) : 0 < 2 * BETA ^ 2 + a.sigma ^ 2 + b.sigma ^ 2 := by
  have := beta_pos
  positivity

theorem max_floor_shrink_le (σ k : ℚ) (hσ : SIGMA_FLOOR ≤ σ) (hk : 0 ≤ k) :
    max SIGMA_FLOOR (σ * (1 - k / 2)) ≤ σ := by
  refine max_le hσ ?_
  have h0 : (0:ℚ) ≤ σ := le_trans (le_of_lt sigma_floor_pos) hσ
  nlinarith

/-- A concrete rating at the initial constants, the specification's section 8
scenario. -/
def r0 : Rating := { mu := 25, sigma := 25/3 }

/-- C4: for every valid rating update with strictly positive sigmas, the
winner's posterior mu is strictly greater than its prior mu and the loser's
posterior mu is strictly less than its prior mu. -/
theorem winner_mu_up_loser_mu_down (a b : Rating)
    (ha : 0 < a.sigma) (hb : 0 < b.sigma) :
    a.mu < (update a b).1.mu ∧ (update a b).2.mu < b.mu := by
  have hc2 : 0 < 2 * BETA ^ 2 + a.sigma ^ 2 + b.sigma ^ 2 := c2_pos a b
  have hv := vGain_pos ((a.mu - b.mu) / (2 * BETA ^ 2 + a.sigma ^ 2 + b.sigma ^ 2))
  have hposA : 0 < (a.sigma ^ 2 / (2 * BETA ^ 2 + a.sigma ^ 2 + b.sigma ^ 2))
      * vGain ((a.mu - b.mu) / (2 * BETA ^ 2 + a.sigma ^ 2 + b.sigma ^ 2)) :=
    mul_pos (div_pos (pow_pos ha 2) hc2) hv
  have hposB : 0 < (b.sigma ^ 2 / (2 * BETA ^ 2 + a.sigma ^ 2 + b.sigma ^ 2))
      * vGain ((a.mu - b.mu) / (2 * BETA ^ 2 + a.sigma ^ 2 + b.sigma ^ 2)) :=
    mul_pos (div_pos (pow_pos hb 2) hc2) hv
  constructor
  · show a.mu < a.mu + (a.sigma ^ 2 / (2 * BETA ^ 2 + a.sigma ^ 2 + b.sigma ^ 2))
      * vGain ((a.mu - b.mu) / (2 * BETA ^ 2 + a.sigma ^ 2 + b.sigma ^ 2))
    linarith
  · show b.mu - (b.sigma ^ 2 / (2 * BETA ^ 2 + a.sigma ^ 2 + b.sigma ^ 2))
      * vGain ((a.mu - b.mu) / (2 * BETA ^ 2 + a.sigma ^ 2 + b.sigma ^ 2)) < b.mu
    linarith

theorem winner_mu_up_loser_mu_down_witness :
    r0.mu < (update r0 r0).1.mu ∧ (update r0 r0).2.mu < r0.mu :=
  winner_mu_up_loser_mu_down r0 r0 (show (0:ℚ) < 25/3 by norm_num)
    (show (0:ℚ) < 25/3 by norm_num)

/-- C5: for every valid rating update of entries whose sigma respects the
configured floor, each participant's posterior sigma is less than or equal to
its prior sigma, and both posterior sigmas stay greater than or equal to the
floor, in particular strictly positive. -/
theorem sigma_nonincreasing_and_floored (a b : Rating)
    (ha : SIGMA_FLOOR ≤ a.sigma) (hb : SIGMA_FLOOR ≤ b.sigma) :
    ((update a b).1.sigma ≤ a.sigma ∧ (update a b).2.sigma ≤ b.sigma)
      ∧ (SIGMA_FLOOR ≤ (update a b).1.sigma ∧ SIGMA_FLOOR ≤ (update a b).2.sigma)
      ∧ (0 < (update a b).1.sigma ∧ 0 < (update a b).2.sigma) := by
  have hc2 : 0 < 2 * BETA ^ 2 + a.sigma ^ 2 + b.sigma ^ 2 := c2_pos a b
  have hw := wGain_nonneg ((a.mu - b.mu) / (2 * BETA ^ 2 + a.sigma ^ 2 + b.sigma ^ 2))
  have hkA : 0 ≤ (a.sigma ^ 2 / (2 * BETA ^ 2 + a.sigma ^ 2 + b.sigma ^ 2))
      * wGain ((a.mu - b.mu) / (2 * BETA ^ 2 + a.sigma ^ 2 + b.sigma ^ 2)) :=
    mul_nonneg (div_nonneg (sq_nonneg _) (le_of_lt hc2)) hw
  have hkB : 0 ≤ (b.sigma ^ 2 / (2 * BETA ^ 2 + a.sigma ^ 2 + b.sigma ^ 2))
      * wGain ((a.mu - b.mu) / (2 * BETA ^ 2 + a.sigma ^ 2 + b.sigma ^ 2)) :=
    mul_nonneg (div_nonneg (sq_nonneg _) (le_of_lt hc2)) hw
  refine ⟨⟨?_, ?_⟩, ⟨le_max_left _ _, le_max_left _ _⟩,
    lt_of_lt_of_le sigma_floor_pos (le_max_left _ _),
    lt_of_lt_of_le sigma_floor_pos (le_max_left _ _)⟩
  · exact max_floor_shrink_le a.sigma _ ha hkA
  · exact max_floor_shrink_le b.sigma _ hb hkB

theorem sigma_nonincreasing_and_floored_witness :
    (((update r0 r0).1.sigma ≤ r0.sigma ∧ (update r0 r0).2.sigma ≤ r0.sigma)
      ∧ (SIGMA_FLOOR ≤ (update r0 r0).1.sigma ∧ SIGMA_FLOOR ≤ (update r0 r0).2.sigma)
      ∧ (0 < (update r0 r0).1.sigma ∧ 0 < (update r0 r0).2.sigma)) :=
  sigma_nonincreasing_and_floored r0 r0 (show (1:ℚ) ≤ 25/3 by norm_num)
    (show (1:ℚ) ≤ 25/3 by norm_num)

/-- Every entry with the given id is archived in the store. -/
def ArchivedAt (s : Store) (i : String) : Prop :=
  ∀ e ∈ s, e.id = i → e.status = Status.Archived

theorem voteAdjust_id_status (r1 r2 : Rating) (w l : String) (e0 : Entry) :
    (if e0.id = w then setRating e0 r1 else if e0.id = l then setRating e0 r2 else e0).id = e0.id
      ∧ (if e0.id = w then setRating e0 r1
          else if e0.id = l then setRating e0 r2 else e0).status = e0.status := by
  constructor <;> (split
                   · rfl
                   · split <;> rfl)

theorem mem_applyVote {s : Store} {w l : String} {e : Entry}
    (he : e ∈ applyVote s w l) :
    ∃ e0 ∈ s, e.id = e0.id ∧ e.status = e0.status := by
  unfold applyVote at he
  split at he
  · exact ⟨e, he, rfl, rfl⟩
  · split at he
    · split at he
      · exact ⟨e, he, rfl, rfl⟩
      · rcases List.mem_map.mp he with ⟨e0, he0, hfe⟩
        refine ⟨e0, he0, ?_, ?_⟩
        · rw [← hfe]
          exact (voteAdjust_id_status _ _ w l e0).1
        · rw [← hfe]
          exact (voteAdjust_id_status _ _ w l e0).2
    all_goals exact ⟨e, he, rfl, rfl⟩

theorem archivedAt_archiveEntry (s : Store) (i : String) :
    ArchivedAt (archiveEntry s i) i := by
  intro e he hei
  unfold archiveEntry at he
  rcases List.mem_map.mp he with ⟨e0, he0, hfe⟩
  by_cases h : e0.id = i
  · rw [← hfe]
    simp [h, setArchived]
  · rw [← hfe] at hei
    simp [h] at hei

theorem archivedAt_applyOp {s : Store} {i : String} (op : Op)
    (h : ArchivedAt s i) : ArchivedAt (applyOp s op) i := by
  cases op with
  | vote w l =>
    intro e he hei
    obtain ⟨e0, he0, hid, hst⟩ := mem_applyVote he
    rw [hst]
    exact h e0 he0 (hid ▸ hei)
  | archive j =>
    intro e he hei
    rcases List.mem_map.mp he with ⟨e0, he0, hfe⟩
    by_cases hj : e0.id = j
    · rw [← hfe]
      simp [hj, setArchived]
    · rw [← hfe] at hei ⊢
      simp [hj] at hei ⊢
      exact h e0 he0 hei

theorem archivedAt_applyOps {s : Store} {i : String} (ops : List Op)
    (h : ArchivedAt s i) : ArchivedAt (applyOps s ops) i := by
  induction ops generalizing s with
  | nil => exact h
  | cons op rest ih => exact ih (archivedAt_applyOp op h)

theorem mem_snapshot {s : Store} {cat : Option String} {e : Entry} :
    e ∈ snapshot s cat ↔ e ∈ s ∧ inScope cat e = true := by
  unfold snapshot listActive
  rw [(List.perm_insertionSort rankBefore _).mem_iff, List.mem_filter]

theorem status_of_inScope {cat : Option String} {e : Entry}
    (h : inScope cat e = true) : e.status = Status.Active := by
  unfold inScope Entry.isActive at h
  simp only [Bool.and_eq_true, decide_eq_true_eq] at h
  exact h.1

theorem mem_allPairs : ∀ {l : List Entry} {p : Entry × Entry},
    p ∈ allPairs l → p.1 ∈ l ∧ p.2 ∈ l := by
  intro l
  induction l with
  | nil => intro p h; cases h
  | cons x xs ih =>
    intro p h
    rw [allPairs, List.mem_append] at h
    rcases h with h | h
    · rcases List.mem_map.mp h with ⟨y, hy, hpair⟩
      rw [← hpair]
      exact ⟨List.mem_cons_self x xs, List.mem_cons_of_mem x hy⟩
    · exact ⟨List.mem_cons_of_mem x (ih h).1, List.mem_cons_of_mem x (ih h).2⟩

theorem allPairs_eq_nil_iff : ∀ {l : List Entry},
    allPairs l = [] ↔ l.length < 2 := by
  intro l
  match l with
  | [] => simp [allPairs]
  | [x] => simp [allPairs]
  | x :: y :: r => simp [allPairs]

theorem nodup_ids_allPairs : ∀ {l : List Entry}, (l.map Entry.id).Nodup →
    ∀ {x y : Entry}, (x, y) ∈ allPairs l → x.id ≠ y.id := by
  intro l
  induction l with
  | nil => intro _ x y h; cases h
  | cons a as ih =>
    intro hn x y h
    rw [allPairs, List.mem_append] at h
    rw [List.map_cons, List.nodup_cons] at hn
    rcases h with h | h
    · rcases List.mem_map.mp h with ⟨y0, hy0, heq⟩
      injection heq with h1 h2
      subst h1
      subst h2
      intro hcontra
      exact hn.1 (by rw [hcontra]; exact List.mem_map_of_mem Entry.id hy0)
    · exact ih hn.2 h

theorem pickBest_mem : ∀ {l : List (Entry × Entry)} {p : Entry × Entry},
    pickBest l = some p → p ∈ l := by
  intro l
  induction l with
  | nil => intro p h; cases h
  | cons q ps ih =>
    intro p h
    cases hp : pickBest ps with
    | none =>
      simp only [pickBest, hp] at h
      cases h
      exact List.mem_cons_self q ps
    | some q' =>
      simp only [pickBest, hp] at h
      by_cases hle : pairScore q ≤ pairScore q'
      · rw [if_pos hle] at h
        cases h
        exact List.mem_cons_self q ps
      · rw [if_neg hle] at h
        cases h
        exact List.mem_cons_of_mem q (ih hp)

theorem pickBest_eq_none : ∀ {l : List (Entry × Entry)},
    pickBest l = none ↔ l = [] := by
  intro l
  cases l with
  | nil => simp [pickBest]
  | cons q ps =>
    simp only [pickBest]
    cases hp : pickBest ps with
    | none => simp
    | some q' =>
      by_cases hle : pairScore q ≤ pairScore q' <;> simp [hle]

theorem pickBest_some {l : List (Entry × Entry)} (h : l ≠ []) :
    ∃ p, pickBest l = some p := by
  cases hp : pickBest l with
  | none => exact absurd (pickBest_eq_none.mp hp) h
  | some p => exact ⟨p, rfl⟩

theorem active_excluded_of_archived {s : Store} {cat : Option String}
    {i : String} (hA : ArchivedAt s i) {e : Entry}
    (he : e ∈ s) (hsc : inScope cat e = true) : e.id ≠ i := by
  intro hid
  have hact := status_of_inScope hsc
  have harch := hA e he hid
  rw [hact] at harch
  cases harch

/-- C6: for every category scope, the snapshot is the list of the entries in
scope, sorted by mu descending with ties broken by id; and once an entry is
archived, no sequence of further operations makes an entry bearing its id
appear in a snapshot or in a selected pair. -/
theorem snapshot_sorted_and_archive_excludes
    (s : Store) (cat : Option String) (i : String) (ops : List Op) :
    List.Sorted rankBefore (snapshot s cat)
      ∧ (∀ e, e ∈ snapshot s cat ↔ e ∈ s ∧ inScope cat e = true)
      ∧ (∀ e, e ∈ snapshot (applyOps (archiveEntry s i) ops) cat → e.id ≠ i)
      ∧ (∀ a b, nextPair (applyOps (archiveEntry s i) ops) cat = Except.ok (a, b) →
          a ≠ i ∧ b ≠ i) := by
  have hA : ArchivedAt (applyOps (archiveEntry s i) ops) i :=
    archivedAt_applyOps ops (archivedAt_archiveEntry s i)
  refine ⟨List.sorted_insertionSort rankBefore _, fun e => mem_snapshot, ?_, ?_⟩
  · intro e he
    obtain ⟨hmem, hsc⟩ := mem_snapshot.mp he
    exact active_excluded_of_archived hA hmem hsc
  · intro a b hab
    unfold nextPair at hab
    cases hp : pickBest (allPairs (listActive (applyOps (archiveEntry s i) ops) cat)) with
    | none => rw [hp] at hab; cases hab
    | some p =>
      rw [hp] at hab
      cases hab
      obtain ⟨h1, h2⟩ := mem_allPairs (pickBest_mem hp)
      rw [listActive, List.mem_filter] at h1 h2
      exact ⟨active_excluded_of_archived hA h1.1 h1.2,
             active_excluded_of_archived hA h2.1 h2.2⟩

/-- C7: for every category scope of a store whose ids are unique, nextPair
returns a pair of two distinct entry ids whenever at least two active entries
exist in the scope, and fails with EmptyPool exactly when fewer than two active
entries exist in the requested scope after category filtering. -/
theorem next_pair_distinct_and_empty_pool
    (s : Store) (cat : Option String) (hn : (s.map Entry.id).Nodup) :
    (2 ≤ (listActive s cat).length →
        ∃ a b, nextPair s cat = Except.ok (a, b) ∧ a ≠ b)
      ∧ (nextPair s cat = Except.error PairFailure.EmptyPool
          ↔ (listActive s cat).length < 2) := by
  have hsub : ((listActive s cat).map Entry.id).Nodup :=
    List.Nodup.sublist (List.Sublist.map Entry.id (List.filter_sublist s)) hn
  constructor
  · intro h2
    have hne : allPairs (listActive s cat) ≠ [] := by
      rw [Ne, allPairs_eq_nil_iff]
      omega
    obtain ⟨p, hp⟩ := pickBest_some hne
    refine ⟨p.1.id, p.2.id, ?_, ?_⟩
    · unfold nextPair
      rw [hp]
    · exact nodup_ids_allPairs hsub (pickBest_mem hp)
  · constructor
    · intro h
      unfold nextPair at h
      cases hp : pickBest (allPairs (listActive s cat)) with
      | none => exact allPairs_eq_nil_iff.mp (pickBest_eq_none.mp hp)
      | some p => rw [hp] at h; cases h
    · intro h
      unfold nextPair
      rw [pickBest_eq_none.mpr (allPairs_eq_nil_iff.mpr h)]

/-- A concrete two-entry active store with distinct ids. -/
def store2 : Store :=
  [{ id := "a", category := "Science", mu := 25, sigma := 25/3, status := Status.Active },
   { id := "b", category := "Science", mu := 26, sigma := 25/3, status := Status.Active }]

theorem next_pair_distinct_and_empty_pool_witness :
    (2 ≤ (listActive store2 none).length →
        ∃ a b, nextPair store2 none = Except.ok (a, b) ∧ a ≠ b)
      ∧ (nextPair store2 none = Except.error PairFailure.EmptyPool
          ↔ (listActive store2 none).length < 2) :=
  next_pair_distinct_and_empty_pool store2 none (by decide)

end Engine

namespace JsonModel

/-- JSON values: the possible results of `JSON.parse`. -/
inductive Json where
  | null : Json
  | bool : Bool → Json
  | num : ℚ → Json
  | str : String → Json
  | arr : List Json → Json
  | obj : List (String × Json) → Json

/-- Whether a JSON value is an object. -/
def Json.isObj : Json → Bool
  | Json.obj _ => true
  | _ => false

/-- JSON whitespace characters. -/
def isWs (c : Char) : Bool :=
  c = ' ' || c = '\t' || c = '\n' || c = '\r'

/-- Drop leading JSON whitespace. -/
def skipWs : List Char → List Char
  | [] => []
  | c :: cs => if isWs c then skipWs cs else c :: cs

/-- The value of a decimal digit. -/
def digitVal (c : Char) : Option ℕ :=
  if '0' ≤ c ∧ c ≤ '9' then some (c.toNat - Char.toNat '0') else none

/-- Take the longest leading run of decimal digits. -/
def takeDigits : List Char → List ℕ × List Char
  | [] => ([], [])
  | c :: cs =>
    match digitVal c with
    | some d =>
      let r := takeDigits cs
      (d :: r.1, r.2)
    | none => ([], c :: cs)

/-- Decimal value of a digit list. -/
def natOfDigits (ds : List ℕ) : ℕ := ds.foldl (fun a d => a * 10 + d) 0

/-- The integer part of a JSON number: at least one digit, no leading zero on
a multi-digit run. -/
def parseIntDigits (cs : List Char) : Option (ℕ × List Char) :=
  match takeDigits cs with
  | ([], _) => none
  | (ds, rest) =>
    if 2 ≤ ds.length ∧ ds.headD 1 = 0 then none
    else some (natOfDigits ds, rest)

/-- The optional fraction part of a JSON number. -/
def parseFracPart (cs : List Char) : Option (ℚ × List Char) :=
  match cs with
  | '.' :: rest =>
    match takeDigits rest with
    | ([], _) => none
    | (ds, r2) => some ((natOfDigits ds : ℚ) / (10 : ℚ) ^ ds.length, r2)
  | _ => some (0, cs)

/-- The optional exponent part of a JSON number. -/
def parseExpPart (cs : List Char) : Option (ℤ × List Char) :=
  match cs with
  | c :: rest =>
    if c = 'e' || c = 'E' then
      match rest with
      | c2 :: r2 =>
        if c2 = '+' then
          match takeDigits r2 with
          | ([], _) => none
          | (ds, r3) => some ((natOfDigits ds : ℤ), r3)
        else if c2 = '-' then
          match takeDigits r2 with
          | ([], _) => none
          | (ds, r3) => some (-(natOfDigits ds : ℤ), r3)
        else
          match takeDigits rest with
          | ([], _) => none
          | (ds, r3) => some ((natOfDigits ds : ℤ), r3)
      | [] => none
    else some (0, cs)
  | [] => some (0, [])

/-- A JSON number after its optional minus sign. -/
def parseNumberAfterSign (neg : Bool) (cs : List Char) : Option (ℚ × List Char) :=
  match parseIntDigits cs with
  | none => none
  | some (n, r1) =>
    match parseFracPart r1 with
    | none => none
    | some (f, r2) =>
      match parseExpPart r2 with
      | none => none
      | some (e, r3) =>
        let v : ℚ := ((n : ℚ) + f) * (10 : ℚ) ^ e
        some (if neg then -v else v, r3)

/-- The value of a hexadecimal digit. -/
def hexVal (c : Char) : Option ℕ :=
  if '0' ≤ c ∧ c ≤ '9' then some (c.toNat - Char.toNat '0')
  else if 'a' ≤ c ∧ c ≤ 'f' then some (c.toNat - Char.toNat 'a' + 10)
  else if 'A' ≤ c ∧ c ≤ 'F' then some (c.toNat - Char.toNat 'A' + 10)
  else none

/-- The character denoted by a single-character escape. -/
def escChar (c : Char) : Option Char :=
  if c = '"' then some '"'
  else if c = '\\' then some '\\'
  else if c = '/' then some '/'
  else if c = 'b' then some (Char.ofNat 8)
  else if c = 'f' then some (Char.ofNat 12)
  else if c = 'n' then some '\n'
  else if c = 'r' then some '\r'
  else if c = 't' then some '\t'
  else none

/-- The body of a JSON string after the opening quote: escapes are decoded,
unescaped control characters are rejected, the closing quote ends it. -/
def parseStringBody : List Char → List Char → Option (String × List Char)
  | acc, '"' :: rest => some (String.mk acc.reverse, rest)
  | acc, '\\' :: 'u' :: h1 :: h2 :: h3 :: h4 :: rest =>
    (match hexVal h1, hexVal h2, hexVal h3, hexVal h4 with
     | some a, some b, some c, some d =>
       parseStringBody (Char.ofNat (((a * 16 + b) * 16 + c) * 16 + d) :: acc) rest
     | _, _, _, _ => none)
  | acc, '\\' :: c :: rest =>
    (match escChar c with
     | some c2 => parseStringBody (c2 :: acc) rest
     | none => none)
  | acc, c :: rest =>
    if c.toNat < 32 then none else parseStringBody (c :: acc) rest
  | _, [] => none

mutual

/-- One JSON value: whitespace, then a literal, string, number, array or
object, as `JSON.parse` accepts it. The fuel bounds recursion depth. -/
def parseValue : ℕ → List Char → Option (Json × List Char)
  | 0, _ => none
  | Nat.succ fuel, cs =>
    match skipWs cs with
    | 'n' :: 'u' :: 'l' :: 'l' :: rest => some (Json.null, rest)
    | 't' :: 'r' :: 'u' :: 'e' :: rest => some (Json.bool true, rest)
    | 'f' :: 'a' :: 'l' :: 's' :: 'e' :: rest => some (Json.bool false, rest)
    | '"' :: rest =>
      (match parseStringBody [] rest with
       | some (s, r2) => some (Json.str s, r2)
       | none => none)
    | '[' :: rest =>
      (match skipWs rest with
       | ']' :: r2 => some (Json.arr [], r2)
       | r2 =>
         match parseElems fuel r2 with
         | some (xs, r3) => some (Json.arr xs, r3)
         | none => none)
    | '{' :: rest =>
      (match skipWs rest with
       | '}' :: r2 => some (Json.obj [], r2)
       | r2 =>
         match parseMembers fuel r2 with
         | some (ms, r3) => some (Json.obj ms, r3)
         | none => none)
    | '-' :: rest =>
      (match parseNumberAfterSign true rest with
       | some (q, r2) => some (Json.num q, r2)
       | none => none)
    | cs2 =>
      (match parseNumberAfterSign false cs2 with
       | some (q, r2) => some (Json.num q, r2)
       | none => none)

/-- The comma-separated elements of a non-empty JSON array, up to the
closing bracket. -/
def parseElems : ℕ → List Char → Option (List Json × List Char)
  | 0, _ => none
  | Nat.succ fuel, cs =>
    match parseValue fuel cs with
    | none => none
    | some (j, r1) =>
      match skipWs r1 with
      | ',' :: r2 =>
        (match parseElems fuel r2 with
         | some (xs, r3) => some (j :: xs, r3)
         | none => none)
      | ']' :: r2 => some ([j], r2)
      | _ => none

/-- The comma-separated members of a non-empty JSON object, up to the
closing brace. -/
def parseMembers : ℕ → List Char → Option (List (String × Json) × List Char)
  | 0, _ => none
  | Nat.succ fuel, cs =>
    match skipWs cs with
    | '"' :: r1 =>
      (match parseStringBody [] r1 with
       | none => none
       | some (k, r2) =>
         match skipWs r2 with
         | ':' :: r3 =>
           (match parseValue fuel r3 with
            | none => none
            | some (j, r4) =>
              match skipWs r4 with
              | ',' :: r5 =>
                (match parseMembers fuel r5 with
                 | some (ms, r6) => some ((k, j) :: ms, r6)
                 | none => none)
              | '}' :: r5 => some ([(k, j)], r5)
              | _ => none)
         | _ => none)
    | _ => none

end

/-- `JSON.parse`: one JSON value covering the whole input, up to trailing
whitespace; `none` models the thrown `SyntaxError`. -/
def jsonParse (s : String) : Option Json :=
  match parseValue (3 * s.length + 3) s.data with
  | some (j, rest) =>
    (match skipWs rest with
     | [] => some j
     | _ => none)
  | none => none

/-- The initializer of the per-category pair cache (`JudgingPage.tsx`
lines 46-53): the stored string is absent or falsy (empty), giving the empty
object, or it is fed to `JSON.parse` inside try/catch, the catch returning the
empty object; a successful parse is returned as the cache whatever JSON value
it is. -/
def initialCategoryPairs (saved : Option String) : Json :=
  match saved with
  | none => Json.obj []
  | some s =>
    if s = "" then Json.obj []
    else
      match jsonParse s with
      | some j => j
      | none => Json.obj []

/-- C10 counterexample: the stored string "null" is well-formed JSON, so the
initializer returns the parsed value `null` verbatim — which is not a cache
object — rather than a cache object. -/
theorem cache_init_can_return_nonobject :
    initialCategoryPairs (some ("null")) = Json.null
      ∧ (initialCategoryPairs (some ("null"))).isObj = false :=
  ⟨rfl, rfl⟩

/-- C10 amended: the initializer is total — for every stored string, absent or
malformed values included, it returns a value and never raises: the empty
object when the stored value is absent or empty or fails to parse, and
otherwise the parsed JSON value verbatim, which need not be a cache object. -/
theorem cache_init_total_empty_on_failure :
    initialCategoryPairs none = Json.obj []
      ∧ initialCategoryPairs (some ("")) = Json.obj []
      ∧ (∀ s, s ≠ "" → jsonParse s = none →
          initialCategoryPairs (some s) = Json.obj [])
      ∧ (∀ s j, s ≠ "" → jsonParse s = some j →
          initialCategoryPairs (some s) = j) := by
  refine ⟨rfl, rfl, ?_, ?_⟩
  · intro s hne hp
    simp [initialCategoryPairs, hne, hp]
  · intro s j hne hp
    simp [initialCategoryPairs, hne, hp]

end JsonModel






